import Mathlib

/-!
Verification model for the `manifold-vis` repository.

The repository's driver (`src/visualize_manifold.py`) constructs a
`SphereDynamics` engine, runs `simulate`, queries `positions` and
`get_inner_product_matrix`, and returns the results after plotting.  The
engine itself lives in `model/dynamical_model.py`, which is not part of the
supplied sources; its behaviour is modelled here from the specification
(`spec.md`, sections 3, 4, 6 and 7).  The driver functions are embedded
from the source file directly.

Vectors are functions `Fin d → ℝ`, snapshots are `Fin n → Fin d → ℝ`, so
the shape `(n_particles, n_dimensions)` of every snapshot is enforced by
the types.  Real arithmetic is exact (no floating point); the spec's
"≈ within tolerance" statements are discharged by exact equalities.
-/

namespace ManifoldVis

open scoped BigOperators
open Classical

noncomputable section

/-- A vector in `ℝ^d`. -/
abbrev Vec (d : ℕ) := Fin d → ℝ

/-- A snapshot of all particles: one `d`-vector per particle. -/
abbrev Snap (n d : ℕ) := Fin n → Vec d

/-- Euclidean dot product. -/
def dot {d : ℕ} (u v : Vec d) : ℝ := ∑ i, u i * v i

/-- Squared Euclidean norm. -/
def normSq {d : ℕ} (u : Vec d) : ℝ := dot u u

/-- Euclidean norm. -/
def vnorm {d : ℕ} (u : Vec d) : ℝ := Real.sqrt (normSq u)

/-- Modelled from the spec (§4.1, missing `model/dynamical_model.py`):
renormalisation of a position to unit length. -/
def normalize {d : ℕ} (u : Vec d) : Vec d := (vnorm u)⁻¹ • u

/-- Modelled from the spec (§4.1, missing `model/dynamical_model.py`):
removal of the radial component of `v` at the point `p`,
`v ← v − (v·p) p`, so `v` lies in the tangent plane at `p`. -/
def tangentProject {d : ℕ} (p v : Vec d) : Vec d := v - (dot v p) • p

/-- Modelled from the spec (§4.4): the fixed internal integration step. -/
def dt : ℝ := 1 / 100

/-- Modelled from the spec (§7): threshold below which a position norm
counts as numerically collapsed. -/
def normEps : ℝ := 1 / 10 ^ 8

/-- Modelled from the spec (§4.2): index distance along the ring ordering
of the `circle` topology, for indices `i j < n`. -/
def ringDist (n i j : ℕ) : ℕ := min ((i + n - j) % n) ((j + n - i) % n)

/-- Modelled from the spec (§4.2): the `circle` topology's neighbour set
of particle `i`, the ring-adjacent indices. -/
def circleNeighbors (n i : ℕ) : Finset ℕ := {(i + n - 1) % n, (i + 1) % n}

/-- Modelled from the spec (§4.3, ambiguity §9.1 resolved to index
distance): the distance-decay weight parameterised by the zone width. -/
def decay (k : ℕ) (zw : ℝ) : ℝ := Real.exp (-(k : ℝ) / zw)

/-- Modelled from the spec (§4.3): the candidates interacting with
particle `i`, gated by `zone_width` along the topology ordering. -/
def zoneSet (n : ℕ) (zw : ℝ) (i : Fin n) : Finset (Fin n) :=
  Finset.univ.filter (fun j => j ≠ i ∧ (ringDist n i.val j.val : ℝ) ≤ zw)

/-- Modelled from the spec (§4.3): decay-weighted pull toward each
qualifying neighbour, summed and projected onto the tangent plane at
`p_i`.  A deterministic, side-effect-free function of its inputs. -/
def interactionForce {n d : ℕ} (zw : ℝ) (P : Snap n d) (i : Fin n) : Vec d :=
  tangentProject (P i)
    (∑ j ∈ zoneSet n zw i, decay (ringDist n i.val j.val) zw • (P j - P i))

/-- Modelled from the spec (§3): current positions and velocities of all
particles, shape `(n, d)` each. -/
structure SphereState (n d : ℕ) where
  positions : Snap n d
  velocities : Snap n d

/-- Engine error conditions (§7): configuration errors at construction,
numerical-instability errors during stepping.  Distinct constructors. -/
inductive EngineError where
  | configError
  | numericalInstability
deriving DecidableEq

/-- Modelled from the spec (§4.4): velocity after the Euler update
`v_i + Δt · F_i`, before re-tangentialisation. -/
def rawVelocity {n d : ℕ} (zw : ℝ) (s : SphereState n d) (i : Fin n) : Vec d :=
  s.velocities i + dt • interactionForce zw s.positions i

/-- Modelled from the spec (§4.4): position after the Euler update
`p_i + Δt · v_i`, before re-projection onto the sphere. -/
def rawPosition {n d : ℕ} (zw : ℝ) (s : SphereState n d) (i : Fin n) : Vec d :=
  s.positions i + dt • rawVelocity zw s i

/-- Modelled from the spec (§4.4, §4.1, §7, missing
`model/dynamical_model.py`): one integration step.  Forces, Euler
updates, then the near-zero-norm guard; on collapse the step fails with
a numerical-instability error before any division, otherwise positions
are renormalised and velocities re-tangentialised at the new points. -/
def stepState {n d : ℕ} (zw : ℝ) (s : SphereState n d) :
    Except EngineError (SphereState n d) :=
  if ∀ i, normEps ≤ vnorm (rawPosition zw s i) then
    .ok ⟨fun i => ManifoldVis.normalize (rawPosition zw s i),
         fun i => tangentProject (ManifoldVis.normalize (rawPosition zw s i))
                    (rawVelocity zw s i)⟩
  else .error .numericalInstability

/-- Modelled from the spec (§4.5, §6, §7, missing
`model/dynamical_model.py`): run `n_steps` steps from state `s`,
recording an independent snapshot of positions and velocities before
every step and after the last one.  Returns the recorded trajectory, the
velocity history, the final engine state (on a failed step, the state
from before that step), and the error if a step failed. -/
def simulateAux {n d : ℕ} (zw : ℝ) :
    SphereState n d → ℕ →
      List (Snap n d) × List (Snap n d) × SphereState n d × Option EngineError
  | s, 0 => ([s.positions], [s.velocities], s, none)
  | s, k + 1 =>
    match stepState zw s with
    | .error e => ([s.positions], [s.velocities], s, some e)
    | .ok s' =>
      let r := simulateAux zw s' k
      (s.positions :: r.1, s.velocities :: r.2.1, r.2.2.1, r.2.2.2)

/-- Construction parameters of the engine (§6). -/
structure SimConfig where
  n_particles : ℕ
  n_dimensions : ℕ
  zone_width : ℝ
  topology : String

/-- Modelled from the spec (§6, §7): the parameter validity condition. -/
def validParams (c : SimConfig) : Prop :=
  1 ≤ c.n_particles ∧ 2 ≤ c.n_dimensions ∧ 0 < c.zone_width ∧
    c.topology = "circle"

/-- Modelled from the spec (§4.1, §9, missing `model/dynamical_model.py`):
the initial state.  `init` is the injected random source; each sampled
row is normalised to unit length, and velocities start as the zero
tangent vectors (§9 leaves the initial-velocity policy open). -/
def initState (n d : ℕ) (init : ℕ → ℕ → ℝ) : SphereState n d :=
  ⟨fun i => ManifoldVis.normalize (fun x => init i.val x.val), fun _ _ => 0⟩

/-- Modelled from the spec (§6, §7, missing `model/dynamical_model.py`):
construction.  Validates all parameters immediately and fails with a
configuration error on any invalid one; otherwise builds the initial
state from the injected random source. -/
def SphereDynamics (c : SimConfig) (init : ℕ → ℕ → ℝ) :
    Except EngineError (SphereState c.n_particles c.n_dimensions) :=
  if validParams c then .ok (initState c.n_particles c.n_dimensions init)
  else .error .configError

/-- Modelled from the spec (§4.6, missing `model/dynamical_model.py`):
the pairwise inner-product (Gram) matrix of the current positions. -/
def get_inner_product_matrix {n d : ℕ} (P : Snap n d) : Fin n → Fin n → ℝ :=
  fun i j => dot (P i) (P j)

/-- A call to `get_inner_product_matrix` as observed through the engine
interface: it returns the matrix together with the engine state after
the call (§4.6: recomputed on demand, no stored matrix). -/
def getIPMCall {n d : ℕ} (s : SphereState n d) :
    (Fin n → Fin n → ℝ) × SphereState n d :=
  (get_inner_product_matrix s.positions, s)

/-- Embedded from `src/visualize_manifold.py` (`analyze_manifold_pca`):
construct the engine, simulate, compute the inner-product matrix, project
the final positions to 3D with the external PCA collaborator `pcaFit`,
plot (side effects only, no data changes), and return
`(trajectory, velocity_history, inner_products, positions_3d)`. -/
def analyze_manifold_pca (c : SimConfig) (n_steps : ℕ) (init : ℕ → ℕ → ℝ)
    (pcaFit : Snap c.n_particles c.n_dimensions → Fin c.n_particles → Fin 3 → ℝ) :
    Except EngineError
      (List (Snap c.n_particles c.n_dimensions) ×
       List (Snap c.n_particles c.n_dimensions) ×
       (Fin c.n_particles → Fin c.n_particles → ℝ) ×
       (Fin c.n_particles → Fin 3 → ℝ)) :=
  match SphereDynamics c init with
  | .error e => .error e
  | .ok s0 =>
    let r := simulateAux c.zone_width s0 n_steps
    match r.2.2.2 with
    | some e => .error e
    | none =>
      .ok (r.1, r.2.1, get_inner_product_matrix r.2.2.1.positions,
           pcaFit r.2.2.1.positions)

/-- Embedded from `src/visualize_manifold.py` (`analyze_manifold_umap`):
same pipeline with the external UMAP collaborator, returning
`(trajectory, velocity_history, positions_3d)`. -/
def analyze_manifold_umap (c : SimConfig) (n_steps : ℕ) (init : ℕ → ℕ → ℝ)
    (umapFit : Snap c.n_particles c.n_dimensions → Fin c.n_particles → Fin 3 → ℝ) :
    Except EngineError
      (List (Snap c.n_particles c.n_dimensions) ×
       List (Snap c.n_particles c.n_dimensions) ×
       (Fin c.n_particles → Fin 3 → ℝ)) :=
  match SphereDynamics c init with
  | .error e => .error e
  | .ok s0 =>
    let r := simulateAux c.zone_width s0 n_steps
    match r.2.2.2 with
    | some e => .error e
    | none => .ok (r.1, r.2.1, umapFit r.2.2.1.positions)

/-- Embedded from `src/visualize_manifold.py` (`analyze_manifold_tsne`):
same pipeline with the external t-SNE collaborator, returning
`(trajectory, velocity_history, positions_3d)`. -/
def analyze_manifold_tsne (c : SimConfig) (n_steps : ℕ) (init : ℕ → ℕ → ℝ)
    (tsneFit : Snap c.n_particles c.n_dimensions → Fin c.n_particles → Fin 3 → ℝ) :
    Except EngineError
      (List (Snap c.n_particles c.n_dimensions) ×
       List (Snap c.n_particles c.n_dimensions) ×
       (Fin c.n_particles → Fin 3 → ℝ)) :=
  match SphereDynamics c init with
  | .error e => .error e
  | .ok s0 =>
    let r := simulateAux c.zone_width s0 n_steps
    match r.2.2.2 with
    | some e => .error e
    | none => .ok (r.1, r.2.1, tsneFit r.2.2.1.positions)

/-- A concrete valid configuration, used to instantiate theorems. -/
def wConfig : SimConfig := ⟨1, 2, 1, "circle"⟩

/-- A concrete random source whose every row is the first standard basis
vector. -/
def wInit : ℕ → ℕ → ℝ := fun _ x => if x = 0 then 1 else 0

/-- The initial state built from `wConfig` and `wInit`. -/
def wState : SphereState 1 2 := initState 1 2 wInit

/-- A degenerate state with all positions and velocities zero, on which a
step collapses numerically. -/
def zState : SphereState 1 2 := ⟨fun _ _ => 0, fun _ _ => 0⟩

/-- A state is good when all positions are unit and all velocities are
tangent: the invariant of §3 and §8. -/
def goodState {n d : ℕ} (s : SphereState n d) : Prop :=
  (∀ i, vnorm (s.positions i) = 1) ∧ (∀ i, dot (s.velocities i) (s.positions i) = 0)

end

section BasicLemmas

theorem dot_comm {d : ℕ} (u v : Vec d) : dot u v = dot v u := by
  unfold dot
  exact Finset.sum_congr rfl fun i _ => mul_comm _ _

theorem dot_sub_left {d : ℕ} (u w p : Vec d) : dot (u - w) p = dot u p - dot w p := by
  unfold dot
  rw [← Finset.sum_sub_distrib]
  exact Finset.sum_congr rfl fun i _ => by simp [sub_mul]

theorem dot_smul_left {d : ℕ} (c : ℝ) (u p : Vec d) : dot (c • u) p = c * dot u p := by
  unfold dot
  rw [Finset.mul_sum]
  exact Finset.sum_congr rfl fun i _ => by simp [mul_assoc]

theorem normSq_nonneg {d : ℕ} (u : Vec d) : 0 ≤ normSq u := by
  unfold normSq dot
  exact Finset.sum_nonneg fun i _ => mul_self_nonneg _

theorem vnorm_nonneg {d : ℕ} (u : Vec d) : 0 ≤ vnorm u := Real.sqrt_nonneg _

theorem vnorm_sq {d : ℕ} (u : Vec d) : vnorm u ^ 2 = normSq u :=
  Real.sq_sqrt (normSq_nonneg u)

theorem normSq_eq_one_of_vnorm {d : ℕ} {u : Vec d} (h : vnorm u = 1) :
    normSq u = 1 := by
  rw [← vnorm_sq, h, one_pow]

theorem vnorm_smul {d : ℕ} (c : ℝ) (u : Vec d) : vnorm (c • u) = |c| * vnorm u := by
  unfold vnorm
  have h : normSq (c • u) = c ^ 2 * normSq u := by
    unfold normSq dot
    rw [Finset.mul_sum]
    exact Finset.sum_congr rfl fun i _ => by simp [smul_eq_mul]; ring
  rw [h, Real.sqrt_mul (sq_nonneg c), Real.sqrt_sq_eq_abs]

theorem vnorm_normalize {d : ℕ} {u : Vec d} (h : vnorm u ≠ 0) :
    vnorm (ManifoldVis.normalize u) = 1 := by
  unfold ManifoldVis.normalize
  rw [vnorm_smul, abs_inv, abs_of_nonneg (vnorm_nonneg u), inv_mul_cancel₀ h]

theorem dot_tangentProject {d : ℕ} (p v : Vec d) (h : normSq p = 1) :
    dot (tangentProject p v) p = 0 := by
  unfold tangentProject
  rw [dot_sub_left, dot_smul_left]
  unfold normSq at h
  rw [h, mul_one, sub_self]

theorem normEps_pos : 0 < normEps := by norm_num [normEps]

theorem getLast?_cons_of_ne_nil {α : Type _} (a : α) (l : List α) (h : l ≠ []) :
    (a :: l).getLast? = l.getLast? := by
  cases l with
  | nil => exact absurd rfl h
  | cons b l' => exact List.getLast?_cons_cons

end BasicLemmas

section StepLemmas

theorem stepState_good {n d : ℕ} (zw : ℝ) (s s' : SphereState n d)
    (h : stepState zw s = .ok s') : goodState s' := by
  unfold stepState at h
  by_cases hc : ∀ i, normEps ≤ vnorm (rawPosition zw s i)
  · rw [if_pos hc] at h
    injection h with h
    subst h
    constructor
    · intro i
      exact vnorm_normalize (ne_of_gt (lt_of_lt_of_le normEps_pos (hc i)))
    · intro i
      exact dot_tangentProject _ _
        (normSq_eq_one_of_vnorm
          (vnorm_normalize (ne_of_gt (lt_of_lt_of_le normEps_pos (hc i)))))
  · rw [if_neg hc] at h
    exact absurd h (by simp)

theorem stepState_error_iff {n d : ℕ} (zw : ℝ) (s : SphereState n d) (e : EngineError) :
    stepState zw s = .error e ↔
      e = .numericalInstability ∧ ∃ i, vnorm (rawPosition zw s i) < normEps := by
  unfold stepState
  by_cases hc : ∀ i, normEps ≤ vnorm (rawPosition zw s i)
  · rw [if_pos hc]
    simp only [reduceCtorEq, false_iff, not_and, not_exists, not_lt]
    intro _ i
    exact hc i
  · rw [if_neg hc]
    push_neg at hc
    obtain ⟨i, hi⟩ := hc
    constructor
    · intro h
      injection h with h
      exact ⟨h.symm, ⟨i, hi⟩⟩
    · rintro ⟨he, -⟩
      rw [he]

end StepLemmas

section SimulateLemmas

theorem simulateAux_head {n d : ℕ} (zw : ℝ) (k : ℕ) (s : SphereState n d) :
    (simulateAux zw s k).1.head? = some s.positions ∧
      (simulateAux zw s k).2.1.head? = some s.velocities := by
  cases k with
  | zero => simp [simulateAux]
  | succ k =>
    cases hs : stepState zw s with
    | error e => simp [simulateAux, hs]
    | ok s' => simp [simulateAux, hs]

theorem simulateAux_ne_nil {n d : ℕ} (zw : ℝ) (k : ℕ) (s : SphereState n d) :
    (simulateAux zw s k).1 ≠ [] ∧ (simulateAux zw s k).2.1 ≠ [] := by
  obtain ⟨h1, h2⟩ := simulateAux_head zw k s
  constructor
  · intro h
    rw [h] at h1
    simp at h1
  · intro h
    rw [h] at h2
    simp at h2

theorem simulateAux_length {n d : ℕ} (zw : ℝ) (k : ℕ) (s : SphereState n d)
    (h : (simulateAux zw s k).2.2.2 = none) :
    (simulateAux zw s k).1.length = k + 1 ∧
      (simulateAux zw s k).2.1.length = k + 1 := by
  induction k generalizing s with
  | zero => simp [simulateAux]
  | succ k ih =>
    cases hs : stepState zw s with
    | error e => simp [simulateAux, hs] at h
    | ok s' =>
      simp only [simulateAux, hs] at h ⊢
      obtain ⟨h1, h2⟩ := ih s' h
      simp [h1, h2]

theorem simulateAux_fail {n d : ℕ} (zw : ℝ) (k : ℕ) (s : SphereState n d)
    (e : EngineError) (h : (simulateAux zw s k).2.2.2 = some e) :
    stepState zw (simulateAux zw s k).2.2.1 = .error e ∧
      (simulateAux zw s k).1.getLast? = some (simulateAux zw s k).2.2.1.positions ∧
      (simulateAux zw s k).2.1.getLast? = some (simulateAux zw s k).2.2.1.velocities := by
  induction k generalizing s with
  | zero => simp [simulateAux] at h
  | succ k ih =>
    cases hs : stepState zw s with
    | error e' =>
      simp only [simulateAux, hs] at h ⊢
      simp only [Option.some.injEq] at h
      subst h
      exact ⟨rfl, rfl, rfl⟩
    | ok s' =>
      simp only [simulateAux, hs] at h ⊢
      obtain ⟨ih1, ih2, ih3⟩ := ih s' h
      obtain ⟨hn1, hn2⟩ := simulateAux_ne_nil zw k s'
      refine ⟨ih1, ?_, ?_⟩
      · rw [getLast?_cons_of_ne_nil _ _ hn1]
        exact ih2
      · rw [getLast?_cons_of_ne_nil _ _ hn2]
        exact ih3

theorem simulateAux_err_instability {n d : ℕ} (zw : ℝ) (k : ℕ) (s : SphereState n d)
    (e : EngineError) (h : (simulateAux zw s k).2.2.2 = some e) :
    e = .numericalInstability := by
  obtain ⟨h1, -, -⟩ := simulateAux_fail zw k s e h
  exact ((stepState_error_iff zw _ e).mp h1).1

theorem simulateAux_invariant {n d : ℕ} (zw : ℝ) (k : ℕ) (s : SphereState n d)
    (hg : goodState s) :
    ∀ (t : ℕ) (P V : Snap n d), (simulateAux zw s k).1[t]? = some P →
      (simulateAux zw s k).2.1[t]? = some V →
      (∀ i, vnorm (P i) = 1) ∧ (∀ i, dot (V i) (P i) = 0) := by
  induction k generalizing s with
  | zero =>
    intro t P V hP hV
    cases t with
    | zero =>
      simp only [simulateAux, List.getElem?_cons_zero, Option.some.injEq] at hP hV
      subst hP
      subst hV
      exact ⟨hg.1, hg.2⟩
    | succ t => simp [simulateAux] at hP
  | succ k ih =>
    intro t P V hP hV
    cases hs : stepState zw s with
    | error e =>
      simp only [simulateAux, hs] at hP hV
      cases t with
      | zero =>
        simp only [List.getElem?_cons_zero, Option.some.injEq] at hP hV
        subst hP
        subst hV
        exact ⟨hg.1, hg.2⟩
      | succ t => simp at hP
    | ok s' =>
      simp only [simulateAux, hs] at hP hV
      cases t with
      | zero =>
        simp only [List.getElem?_cons_zero, Option.some.injEq] at hP hV
        subst hP
        subst hV
        exact ⟨hg.1, hg.2⟩
      | succ t =>
        simp only [List.getElem?_cons_succ] at hP hV
        exact ih s' (stepState_good zw s s' hs) t P V hP hV

theorem simulateAux_final_good {n d : ℕ} (zw : ℝ) (k : ℕ) (s : SphereState n d)
    (hg : goodState s) : goodState (simulateAux zw s k).2.2.1 := by
  induction k generalizing s with
  | zero => simpa [simulateAux] using hg
  | succ k ih =>
    cases hs : stepState zw s with
    | error e => simpa [simulateAux, hs] using hg
    | ok s' =>
      simp only [simulateAux, hs]
      exact ih s' (stepState_good zw s s' hs)

end SimulateLemmas

section ConcreteLemmas

theorem wInit_vnorm (i : ℕ) : vnorm (fun x : Fin 2 => wInit i x.val) = 1 := by
  unfold vnorm normSq dot wInit
  rw [Fin.sum_univ_two]
  norm_num

theorem wConfig_valid : validParams wConfig := by
  show 1 ≤ 1 ∧ 2 ≤ 2 ∧ (0 : ℝ) < 1 ∧ "circle" = "circle"
  exact ⟨le_refl _, le_refl _, by norm_num, rfl⟩

theorem wCreate : SphereDynamics wConfig wInit = .ok wState := by
  unfold SphereDynamics
  rw [if_pos wConfig_valid]
  rfl

theorem wState_good : goodState wState := by
  constructor
  · intro i
    exact vnorm_normalize (by rw [wInit_vnorm]; norm_num)
  · intro i
    simp [wState, initState, dot]

theorem vnorm_zero_vec {d : ℕ} : vnorm (0 : Vec d) = 0 := by
  unfold vnorm normSq dot
  simp

theorem zoneSet_one (zw : ℝ) (i : Fin 1) : zoneSet 1 zw i = ∅ := by
  apply Finset.eq_empty_iff_forall_not_mem.mpr
  intro j hj
  rw [zoneSet, Finset.mem_filter] at hj
  exact hj.2.1 (Subsingleton.elim j i)

theorem rawPosition_zState (zw : ℝ) (i : Fin 1) : rawPosition zw zState i = 0 := by
  unfold rawPosition rawVelocity interactionForce
  rw [zoneSet_one, Finset.sum_empty]
  funext x
  simp [zState, tangentProject, dot]

theorem stepState_zState (zw : ℝ) :
    stepState zw zState = .error .numericalInstability := by
  apply (stepState_error_iff zw zState _).mpr
  refine ⟨rfl, ⟨0, ?_⟩⟩
  rw [rawPosition_zState, vnorm_zero_vec]
  exact normEps_pos

end ConcreteLemmas

section Claims

/-- C1: for every engine constructed with valid parameters and every
`n_steps ≥ 0`, a successful `simulate` returns a trajectory and a
velocity history each of length `n_steps + 1`, whose first elements are
the initial (pre-step) positions and velocities.  Every snapshot has
shape `(n_particles, n_dimensions)` by its type
`Fin c.n_particles → Fin c.n_dimensions → ℝ`. -/
theorem simulate_returns_full_history (c : SimConfig) (init : ℕ → ℕ → ℝ)
    (s0 : SphereState c.n_particles c.n_dimensions) (n_steps : ℕ)
    (tr vh : List (Snap c.n_particles c.n_dimensions))
    (sf : SphereState c.n_particles c.n_dimensions)
    (hc : SphereDynamics c init = .ok s0)
    (hr : simulateAux c.zone_width s0 n_steps = (tr, vh, sf, none)) :
    tr.length = n_steps + 1 ∧ vh.length = n_steps + 1 ∧
      tr.head? = some s0.positions ∧ vh.head? = some s0.velocities := by
  have hl := simulateAux_length c.zone_width n_steps s0 (by rw [hr])
  have hh := simulateAux_head c.zone_width n_steps s0
  rw [hr] at hl hh
  exact ⟨hl.1, hl.2, hh.1, hh.2⟩

/-- Witness for C1 at a concrete valid engine and `n_steps = 0`. -/
theorem simulate_returns_full_history_witness :
    [wState.positions].length = 0 + 1 ∧ [wState.velocities].length = 0 + 1 ∧
      [wState.positions].head? = some wState.positions ∧
      [wState.velocities].head? = some wState.velocities :=
  simulate_returns_full_history wConfig wInit wState 0 [wState.positions]
    [wState.velocities] wState wCreate rfl

/-- C2: for every run whose initial random rows are nonzero, every
particle of every recorded step has a position of unit norm within
tolerance `1e-6` and a velocity tangent to it within the same tolerance
(in this exact-arithmetic model, the norm is exactly `1` and the dot
product exactly `0` after every completed step). -/
theorem invariant_all_recorded_steps (c : SimConfig) (init : ℕ → ℕ → ℝ)
    (s0 : SphereState c.n_particles c.n_dimensions) (n_steps : ℕ)
    (hc : SphereDynamics c init = .ok s0)
    (hinit : ∀ i : Fin c.n_particles,
      vnorm (fun x : Fin c.n_dimensions => init i.val x.val) ≠ 0)
    (t : ℕ) (P V : Snap c.n_particles c.n_dimensions)
    (hP : (simulateAux c.zone_width s0 n_steps).1[t]? = some P)
    (hV : (simulateAux c.zone_width s0 n_steps).2.1[t]? = some V) :
    ∀ i, |vnorm (P i) - 1| ≤ 1 / 10 ^ 6 ∧ |dot (V i) (P i)| ≤ 1 / 10 ^ 6 := by
  have hg : goodState s0 := by
    unfold SphereDynamics at hc
    by_cases hv : validParams c
    · rw [if_pos hv] at hc
      injection hc with hc
      subst hc
      constructor
      · intro i
        exact vnorm_normalize (hinit i)
      · intro i
        simp [initState, dot]
    · rw [if_neg hv] at hc
      exact absurd hc (by simp)
  have h := simulateAux_invariant c.zone_width n_steps s0 hg t P V hP hV
  intro i
  constructor
  · rw [h.1 i]
    norm_num
  · rw [h.2 i]
    norm_num

/-- Witness for C2 at a concrete valid engine, `n_steps = 0`, step 0. -/
theorem invariant_all_recorded_steps_witness :
    |vnorm (wState.positions 0) - 1| ≤ 1 / 10 ^ 6 ∧
      |dot (wState.velocities 0) (wState.positions 0)| ≤ 1 / 10 ^ 6 :=
  invariant_all_recorded_steps wConfig wInit wState 0 wCreate
    (fun i => by
      show vnorm (fun x : Fin 2 => wInit i.val x.val) ≠ 0
      rw [wInit_vnorm]
      norm_num) 0 wState.positions wState.velocities
    rfl rfl ⟨0, by norm_num [wConfig]⟩

/-- C3: on unit-norm positions (the engine invariant),
`get_inner_product_matrix` returns the matrix `M` with
`M i j = p_i · p_j` computed from the current positions, which is
symmetric, has diagonal entries equal to `1`, and has all entries in
`[-1, 1]`. -/
theorem inner_product_matrix_spec {n d : ℕ} (P : Snap n d)
    (hP : ∀ i, vnorm (P i) = 1) :
    ∀ i j, get_inner_product_matrix P i j = dot (P i) (P j) ∧
      get_inner_product_matrix P i j = get_inner_product_matrix P j i ∧
      get_inner_product_matrix P i i = 1 ∧
      -1 ≤ get_inner_product_matrix P i j ∧ get_inner_product_matrix P i j ≤ 1 := by
  intro i j
  have hsq : ∀ a : Fin n, normSq (P a) = 1 := fun a => normSq_eq_one_of_vnorm (hP a)
  have hdiag : get_inner_product_matrix P i i = 1 := hsq i
  have hcs : dot (P i) (P j) ^ 2 ≤ 1 := by
    have hc := Finset.sum_mul_sq_le_sq_mul_sq Finset.univ (P i) (P j)
    have hni : ∑ x, P i x ^ 2 = 1 := by
      rw [← hsq i]
      unfold normSq dot
      exact Finset.sum_congr rfl fun x _ => sq (P i x)
    have hnj : ∑ x, P j x ^ 2 = 1 := by
      rw [← hsq j]
      unfold normSq dot
      exact Finset.sum_congr rfl fun x _ => sq (P j x)
    rw [hni, hnj, one_mul] at hc
    exact hc
  have habs : |dot (P i) (P j)| ≤ 1 := (sq_le_one_iff_abs_le_one _).mp hcs
  have hb := abs_le.mp habs
  exact ⟨rfl, dot_comm _ _, hdiag, hb.1, hb.2⟩

/-- Witness for C3 at a concrete unit-norm state. -/
theorem inner_product_matrix_spec_witness :
    get_inner_product_matrix wState.positions 0 0 =
        dot (wState.positions 0) (wState.positions 0) ∧
      get_inner_product_matrix wState.positions 0 0 =
        get_inner_product_matrix wState.positions 0 0 ∧
      get_inner_product_matrix wState.positions 0 0 = 1 ∧
      -1 ≤ get_inner_product_matrix wState.positions 0 0 ∧
      get_inner_product_matrix wState.positions 0 0 ≤ 1 :=
  inner_product_matrix_spec wState.positions wState_good.1 0 0

/-- C4: construction fails with a configuration error if and only if a
parameter is invalid (`n_particles < 1`, `n_dimensions < 2`,
`zone_width` not positive, or an unrecognized topology tag); for valid
parameters it succeeds, and the simulation loop never raises a
configuration error (stepping can only fail with the distinct
numerical-instability error). -/
theorem construction_validation (c : SimConfig) (init : ℕ → ℕ → ℝ) :
    ((c.n_particles < 1 ∨ c.n_dimensions < 2 ∨ ¬0 < c.zone_width ∨
        c.topology ≠ "circle") ↔ SphereDynamics c init = .error .configError) ∧
      (validParams c ↔ SphereDynamics c init =
        .ok (initState c.n_particles c.n_dimensions init)) ∧
      ∀ (k : ℕ) (s : SphereState c.n_particles c.n_dimensions) (e : EngineError),
        (simulateAux c.zone_width s k).2.2.2 = some e → e ≠ .configError := by
  have hiff : (c.n_particles < 1 ∨ c.n_dimensions < 2 ∨ ¬0 < c.zone_width ∨
      c.topology ≠ "circle") ↔ ¬validParams c := by
    unfold validParams
    constructor
    · rintro (h | h | h | h) ⟨h1, h2, h3, h4⟩
      · omega
      · omega
      · exact h h3
      · exact h h4
    · intro h
      by_contra hcon
      push_neg at hcon
      obtain ⟨h1, h2, h3, h4⟩ := hcon
      exact h ⟨by omega, by omega, h3, h4⟩
  have hstep : ∀ (k : ℕ) (s : SphereState c.n_particles c.n_dimensions)
      (e : EngineError), (simulateAux c.zone_width s k).2.2.2 = some e →
        e ≠ .configError := by
    intro k s e h
    rw [simulateAux_err_instability c.zone_width k s e h]
    simp
  unfold SphereDynamics
  by_cases hv : validParams c
  · rw [if_pos hv]
    refine ⟨?_, ?_, hstep⟩
    · rw [hiff]
      simp [hv]
    · simp [hv]
  · rw [if_neg hv]
    refine ⟨?_, ?_, hstep⟩
    · rw [hiff]
      simp [hv]
    · simp [hv]

/-- Witness for C4: an invalid particle count is rejected at
construction with a configuration error. -/
theorem construction_validation_witness :
    SphereDynamics ⟨0, 2, 1, "circle"⟩ wInit = .error .configError :=
  (construction_validation ⟨0, 2, 1, "circle"⟩ wInit).1.mp (Or.inl (by norm_num))

/-- Auxiliary: the value of `x % n` for `x < 2 * n`. -/
theorem mod_char (x n : ℕ) (h1 : 0 < n) (h2 : x < 2 * n) :
    x % n = if x < n then x else x - n := by
  split_ifs with h
  · exact Nat.mod_eq_of_lt h
  · rw [Nat.mod_eq_sub_mod (by omega)]
    exact Nat.mod_eq_of_lt (by omega)

/-- C5: for the `circle` topology, the neighbour set of particle
`i < n` is exactly `{(i − 1) mod n, (i + 1) mod n}` (written with the
truncation-safe `(i + n − 1) % n`), a function of the index ordering
alone — no particle position occurs in it — and for `n ≥ 2` it
coincides with the indices at unit ring distance from `i`, the metric
the interaction zone uses.  It is a pure function of `(n, i)`, hence
fixed at construction and unchanged by `simulate`. -/
theorem circle_topology_neighbors (n i j : ℕ) (hi : i < n) :
    (j ∈ circleNeighbors n i ↔ j = (i + n - 1) % n ∨ j = (i + 1) % n) ∧
      (2 ≤ n → j < n → (j ∈ circleNeighbors n i ↔ ringDist n i j = 1)) := by
  have hmem : j ∈ circleNeighbors n i ↔
      j = (i + n - 1) % n ∨ j = (i + 1) % n := by
    unfold circleNeighbors
    rw [Finset.mem_insert, Finset.mem_singleton]
  refine ⟨hmem, fun hn hj => ?_⟩
  rw [hmem]
  unfold ringDist
  have hn0 : 0 < n := by omega
  rw [mod_char (i + n - 1) n hn0 (by omega), mod_char (i + 1) n hn0 (by omega),
    mod_char (i + n - j) n hn0 (by omega), mod_char (j + n - i) n hn0 (by omega)]
  split_ifs <;> omega

/-- Witness for C5 at `n = 5`, `i = 0`, `j = 4`. -/
theorem circle_topology_neighbors_witness :
    (4 ∈ circleNeighbors 5 0 ↔ 4 = (0 + 5 - 1) % 5 ∨ 4 = (0 + 1) % 5) ∧
      (2 ≤ 5 → 4 < 5 → (4 ∈ circleNeighbors 5 0 ↔ ringDist 5 0 4 = 1)) :=
  circle_topology_neighbors 5 0 4 (by norm_num)

/-- C6: a step fails loudly with the distinct numerical-instability
error exactly when some raw position norm collapses below the guard
threshold, before any division (on success every new position has norm
exactly `1`, never an invalid value); and when a run fails, the final
engine state is the state from before the failed step and it is still
the last recorded snapshot of both histories (no partial corruption). -/
theorem step_failure_isolation {n d : ℕ} (zw : ℝ) :
    (∀ (s : SphereState n d) (e : EngineError), stepState zw s = .error e →
        e = .numericalInstability ∧ ∃ i, vnorm (rawPosition zw s i) < normEps) ∧
      (∀ s : SphereState n d, (∃ i, vnorm (rawPosition zw s i) < normEps) →
        stepState zw s = .error .numericalInstability) ∧
      (∀ (s s' : SphereState n d), stepState zw s = .ok s' →
        ∀ i, vnorm (s'.positions i) = 1) ∧
      ∀ (k : ℕ) (s : SphereState n d) (e : EngineError)
        (tr vh : List (Snap n d)) (sf : SphereState n d),
        simulateAux zw s k = (tr, vh, sf, some e) →
        stepState zw sf = .error e ∧ tr.getLast? = some sf.positions ∧
          vh.getLast? = some sf.velocities := by
  refine ⟨?_, ?_, ?_, ?_⟩
  · intro s e h
    exact (stepState_error_iff zw s e).mp h
  · intro s hi
    exact (stepState_error_iff zw s _).mpr ⟨rfl, hi⟩
  · intro s s' h
    exact (stepState_good zw s s' h).1
  · intro k s e tr vh sf h
    have := simulateAux_fail zw k s e (by rw [h])
    rw [h] at this
    exact this

/-- Witness for C6: a run from the all-zero state fails at its first
step with the numerical-instability error, leaving the pre-step state
recorded. -/
theorem step_failure_isolation_witness :
    stepState 1 zState = .error .numericalInstability ∧
      [zState.positions].getLast? = some zState.positions ∧
      [zState.velocities].getLast? = some zState.velocities :=
  (step_failure_isolation (n := 1) (d := 2) 1).2.2.2 1 zState .numericalInstability
    [zState.positions] [zState.velocities] zState
    (by simp [simulateAux, stepState_zState])

/-- C7: a `get_inner_product_matrix` call leaves the engine state
(positions and velocities) unchanged, and a second call on that state,
with no intervening `simulate`, returns the identical matrix. -/
theorem inner_product_idempotent {n d : ℕ} (s : SphereState n d) :
    (getIPMCall s).2 = s ∧
      (getIPMCall (getIPMCall s).2).1 = (getIPMCall s).1 :=
  ⟨rfl, rfl⟩

/-- C8: the simulation is deterministic — two engines constructed from
identical `(n_particles, n_dimensions, zone_width, topology, seed)`
are equal, and running `simulate` the same number of steps on them
yields identical trajectories, velocity histories, final states and
error outcomes.  Stepping is a pure function of the engine state (no
hidden state or randomness exists in the step relation). -/
theorem simulate_deterministic (c : SimConfig) (init : ℕ → ℕ → ℝ) (k : ℕ)
    (s1 s2 : SphereState c.n_particles c.n_dimensions)
    (h1 : SphereDynamics c init = .ok s1) (h2 : SphereDynamics c init = .ok s2) :
    simulateAux c.zone_width s1 k = simulateAux c.zone_width s2 k := by
  have h := h1.symm.trans h2
  injection h with h
  rw [h]

/-- Witness for C8 at a concrete engine built twice from the same
configuration and seed. -/
theorem simulate_deterministic_witness :
    simulateAux wConfig.zone_width wState 0 = simulateAux wConfig.zone_width wState 0 :=
  simulate_deterministic wConfig wInit 0 wState wState wCreate wCreate

/-- C9: for the `circle` topology, a `zone_width` exceeding the particle
count causes no error: construction succeeds, every particle's
interaction set is maximal (all other particles — neighbour lookups are
total over `Fin n_particles`, so none can go out of range), and the
only error a simulation step can ever raise is the numerical-instability
one, never an out-of-range failure. -/
theorem large_zone_width_safe (c : SimConfig) (init : ℕ → ℕ → ℝ)
    (h1 : 1 ≤ c.n_particles) (h2 : 2 ≤ c.n_dimensions)
    (h3 : c.topology = "circle") (h4 : (c.n_particles : ℝ) < c.zone_width) :
    SphereDynamics c init = .ok (initState c.n_particles c.n_dimensions init) ∧
      (∀ i : Fin c.n_particles,
        zoneSet c.n_particles c.zone_width i = Finset.univ.erase i) ∧
      ∀ (k : ℕ) (s : SphereState c.n_particles c.n_dimensions) (e : EngineError),
        (simulateAux c.zone_width s k).2.2.2 = some e →
          e = .numericalInstability := by
  have hn0 : 0 < c.n_particles := h1
  have hzw : (0 : ℝ) < c.zone_width := by
    have : (0 : ℝ) < (c.n_particles : ℝ) := by exact_mod_cast hn0
    linarith
  refine ⟨?_, ?_, ?_⟩
  · unfold SphereDynamics
    rw [if_pos ⟨h1, h2, hzw, h3⟩]
  · intro i
    apply Finset.ext
    intro j
    rw [zoneSet, Finset.mem_filter, Finset.mem_erase]
    have hrd : (ringDist c.n_particles i.val j.val : ℝ) ≤ c.zone_width := by
      have hlt : ringDist c.n_particles i.val j.val < c.n_particles :=
        lt_of_le_of_lt (min_le_left _ _) (Nat.mod_lt _ hn0)
      have : (ringDist c.n_particles i.val j.val : ℝ) < (c.n_particles : ℝ) := by
        exact_mod_cast hlt
      linarith
    constructor
    · rintro ⟨-, hj, -⟩
      exact ⟨hj, Finset.mem_univ j⟩
    · rintro ⟨hj, -⟩
      exact ⟨Finset.mem_univ j, hj, hrd⟩
  · intro k s e h
    exact simulateAux_err_instability c.zone_width k s e h

/-- Witness for C9 at one particle and `zone_width = 2 > 1`. -/
theorem large_zone_width_safe_witness :
    SphereDynamics ⟨1, 2, 2, "circle"⟩ wInit = .ok (initState 1 2 wInit) :=
  (large_zone_width_safe ⟨1, 2, 2, "circle"⟩ wInit (by norm_num) (by norm_num) rfl
    (by norm_num)).1

/-- C10: each driver of `src/visualize_manifold.py` returns the
trajectory and velocity history exactly as produced by `simulate`, and
`analyze_manifold_pca` additionally returns the inner-product matrix
exactly as `get_inner_product_matrix` computes it on the final
positions; the plotting and projection collaborators (arbitrary
`pcaFit`, `umapFit`, `tsneFit`) never alter these values. -/
theorem drivers_return_simulation_output (c : SimConfig) (n_steps : ℕ)
    (init : ℕ → ℕ → ℝ)
    (pcaFit umapFit tsneFit :
      Snap c.n_particles c.n_dimensions → Fin c.n_particles → Fin 3 → ℝ)
    (s0 : SphereState c.n_particles c.n_dimensions)
    (tr vh : List (Snap c.n_particles c.n_dimensions))
    (sf : SphereState c.n_particles c.n_dimensions)
    (hc : SphereDynamics c init = .ok s0)
    (hr : simulateAux c.zone_width s0 n_steps = (tr, vh, sf, none)) :
    analyze_manifold_pca c n_steps init pcaFit =
        .ok (tr, vh, get_inner_product_matrix sf.positions, pcaFit sf.positions) ∧
      analyze_manifold_umap c n_steps init umapFit =
        .ok (tr, vh, umapFit sf.positions) ∧
      analyze_manifold_tsne c n_steps init tsneFit =
        .ok (tr, vh, tsneFit sf.positions) := by
  simp only [analyze_manifold_pca, analyze_manifold_umap, analyze_manifold_tsne,
    hc, hr]
  exact ⟨trivial, trivial, trivial⟩

/-- Witness for C10 at a concrete engine, `n_steps = 0`, and constant
projection collaborators. -/
theorem drivers_return_simulation_output_witness :
    analyze_manifold_pca wConfig 0 wInit (fun _ _ _ => 0) =
        .ok ([wState.positions], [wState.velocities],
          get_inner_product_matrix wState.positions, fun _ _ => (0 : ℝ)) ∧
      analyze_manifold_umap wConfig 0 wInit (fun _ _ _ => 0) =
        .ok ([wState.positions], [wState.velocities], fun _ _ => (0 : ℝ)) ∧
      analyze_manifold_tsne wConfig 0 wInit (fun _ _ _ => 0) =
        .ok ([wState.positions], [wState.velocities], fun _ _ => (0 : ℝ)) :=
  drivers_return_simulation_output wConfig 0 wInit (fun _ _ _ => 0)
    (fun _ _ _ => 0) (fun _ _ _ => 0) wState [wState.positions]
    [wState.velocities] wState wCreate rfl

end Claims

end ManifoldVis
